import Mathlib

/-!
Shallow embedding of `src/src/ngx-uploader/services/ngx-uploader.ts` and
proofs about it.

Modelling conventions:
* JavaScript numbers are modelled as exact arithmetic: integer-valued
  quantities (byte counts, timestamps, indices) as `ℤ`/`ℕ`, and the
  intermediate real-valued computations of `humanizeBytes` and the speed
  computation as `ℚ`.
* `Math.floor(Math.log(x) / Math.log(1024))` is modelled as the exact
  floor of the base-1024 logarithm (`logFloor1024`), computed by repeated
  division with a fuel of 128 — enough for every finite IEEE double
  (whose base-1024 logarithm is below 103), so the fuel never runs out on
  any input the source can see.
* `EventEmitter.emit` calls are modelled as elements appended to an output
  event list; `Subscription.unsubscribe()` calls are collected as a list of
  subscription tokens (`ℕ`), standing for RxJS subscription identity.
* Fallible or absent JavaScript values are modelled with `Option`.
-/

/-- `enum UploadStatus { Queue, Uploading, Done }` (lines 8-12). -/
inductive UploadStatus where
  | Queue
  | Uploading
  | Done
deriving Repr, DecidableEq

/-- The `data` payload of `UploadProgress` (lines 16-20): percentage, speed
(`null`able) and human-readable speed (`null`able). -/
structure ProgressData where
  percentage : ℤ
  speed : Option ℤ
  speedHuman : Option String
deriving Repr, DecidableEq

/-- `interface UploadProgress` (lines 14-21); `data?` is optional. -/
structure UploadProgress where
  status : UploadStatus
  data : Option ProgressData
deriving Repr, DecidableEq

/-- `interface UploadFile` (lines 23-31). `lastModifiedDate` is modelled as an
integer timestamp. -/
structure UploadFile where
  id : String
  fileIndex : ℕ
  lastModifiedDate : ℤ
  name : String
  size : ℕ
  type : String
  progress : UploadProgress
deriving Repr, DecidableEq

/-- The tag of `interface UploadOutput` (line 34). -/
inductive OutType where
  | addedToQueue
  | allAddedToQueue
  | uploading
  | done
  | removed
  | start
  | cancelled
deriving Repr, DecidableEq

/-- `interface UploadOutput` (lines 33-36). -/
structure UploadOutput where
  type : OutType
  file : Option UploadFile
deriving Repr, DecidableEq

/-- A raw `File` handle from a `FileList` (an external collaborator):
only the fields the source reads (`name`, `size`, `type`,
`lastModifiedDate`). -/
structure RawFile where
  name : String
  size : ℕ
  type : String
  lastModifiedDate : ℤ
deriving Repr, DecidableEq

/-- The six-element unit list of `humanizeBytes` (line 53). -/
def sizes : List String := ["Bytes", "KB", "MB", "GB", "TB", "PB"]

/-- Floor of the base-1024 logarithm of a positive natural, by repeated
division; `fuel` bounds the recursion depth and is always called with 128,
which covers every finite IEEE double. -/
def logFloorAux : ℕ → ℕ → ℕ
  | 0, _ => 0
  | fuel + 1, n => if 1024 ≤ n then logFloorAux fuel (n / 1024) + 1 else 0

/-- Ceiling of the base-1024 logarithm of a natural (used for inputs in
`(0, 1)`, where the floor of the logarithm is negative). -/
def clogAux : ℕ → ℕ → ℕ
  | 0, _ => 0
  | fuel + 1, n => if n ≤ 1 then 0 else clogAux fuel ((n + 1023) / 1024) + 1

/-- `Math.floor(Math.log(x) / Math.log(1024))` (line 54) on the exact
rationals: for `x ≥ 1` this is the floor of the base-1024 logarithm of
`⌊x⌋` (which equals the floor of the base-1024 logarithm of `x`, since the
powers of 1024 are integers); for `0 < x < 1` it is `-⌈log₁₀₂₄ (1/x)⌉`,
where `⌈x.den / x.num⌉ = (x.den + x.num - 1) / x.num` is the ceiling of
`1/x` and `clogAux` takes its ceiling base-1024 logarithm.  Inputs `< 0`
do not arise from the source's byte-count domain and are not modelled
(the source would produce `NaN` there). -/
def logFloor1024 (x : ℚ) : ℤ :=
  if 1 ≤ x then (logFloorAux 128 (⌊x⌋.toNat) : ℤ)
  else -(clogAux 128 ((x.den + x.num.toNat - 1) / x.num.toNat) : ℤ)

/-- JavaScript array indexing `sizes[i]` with a possibly negative or
out-of-range index: `none` stands for `undefined`. -/
def jsIndex (l : List String) (i : ℤ) : Option String :=
  if 0 ≤ i then l.get? i.toNat else none

/-- Renders `n / 100` the way
`parseFloat((…).toFixed(2)).toString()` does: two decimals, then trailing
zeros (and a bare decimal point) dropped. -/
def formatFixedTrim (n : ℤ) : String :=
  let m := n.natAbs
  let sign := if n < 0 then "-" else ""
  let ip := m / 100
  let fr := m % 100
  sign ++ (if fr = 0 then toString ip
    else if fr % 10 = 0 then toString ip ++ "." ++ toString (fr / 10)
    else toString ip ++ "." ++ (if fr < 10 then "0" else "") ++ toString fr)

/-- `(x / Math.pow(1024, i) * 100)` rounded as `toFixed(2)` rounds
(nearest, ties up): `⌊x / 1024^i * 100 + 1/2⌋`, computed on the
numerator/denominator pair as `⌊(2a + b) / (2b)⌋` with
`a / b = x * 100 / 1024^i` and `b > 0`. -/
def scaled100 (x : ℚ) (i : ℤ) : ℤ :=
  let a : ℤ := if 0 ≤ i then x.num * 100
    else x.num * 100 * ((1024 ^ (-i).toNat : ℕ) : ℤ)
  let b : ℤ := if 0 ≤ i then (x.den : ℤ) * ((1024 ^ i.toNat : ℕ) : ℤ)
    else (x.den : ℤ)
  Int.fdiv (2 * a + b) (2 * b)

/-- `humanizeBytes` (lines 47-57): `"0 Byte"` for zero, otherwise the
value scaled by the 1024-power picked by `logFloor1024`, rendered with
`toFixed(2)`/`parseFloat`, and suffixed with the unit from `sizes` (the
string `"undefined"` when the index misses the list, as JavaScript string
concatenation of `undefined` would produce). -/
def humanizeBytes (x : ℚ) : String :=
  if x = 0 then "0 Byte"
  else
    formatFixedTrim (scaled100 x (logFloor1024 x)) ++ " " ++
      (jsIndex sizes (logFloor1024 x)).getD "undefined"

/-! ## Transfer Executor (`uploadFile`, lines 148-204)

One Executor run is modelled as a fold over the sequence of transport
events the XHR delivers: `progress` ticks (with the wall-clock time `now`
at which the tick is handled, and the `lengthComputable`/`loaded`/`total`
fields of the `ProgressEvent`) and the terminal upload `load` event.
`observer.next` calls append to the output list; after `observer.complete()`
the RxJS subscriber discards further `next` calls, modelled by the
`completed` flag — note the listeners themselves still run and still
mutate the entry and the captured variables, exactly as in the source.
Cancellation (unsubscription) aborts the XHR, so a cancelled run is a run
over a prefix of the transport-event sequence. -/

/-- `parseInt(load / diff * 1000, 10)` (line 161): truncation toward zero
of the exact quotient `load * 1000 / diff` (`diff = 0`, where JavaScript
would produce `NaN`, is not exercised by any claim). -/
def jsSpeed (load diff : ℤ) : ℤ := Int.tdiv (load * 1000) diff

/-- `Math.round(a / b)` for `b > 0` (line 157): `⌊a/b + 1/2⌋ = ⌊(2a + b) / (2b)⌋`. -/
def jsRoundDiv (a b : ℤ) : ℤ := Int.fdiv (2 * a + b) (2 * b)

/-- A transport-level event delivered to the Executor's listeners. -/
inductive XhrEvent where
  | progress (now : ℤ) (lengthComputable : Bool) (loaded : ℤ) (total : ℤ)
  | load
deriving Repr, DecidableEq

/-- The Executor's per-run mutable state: the captured variables `time`
(line 152) and `load` (line 153), the entry being mutated, and whether
`observer.complete()` has run. -/
structure ExecState where
  time : ℤ
  load : ℤ
  file : UploadFile
  completed : Bool
deriving Repr, DecidableEq

/-- One transport event through the two listeners (lines 155-188). -/
def execStep (st : ExecState) : XhrEvent → ExecState × List UploadOutput
  | .progress now lengthComputable loaded total =>
    if lengthComputable then
      let percentage := jsRoundDiv (loaded * 100) total
      let diff := now - st.time
      let newLoad := loaded - st.load
      let speed := jsSpeed newLoad diff
      let f := { st.file with
        progress := ⟨.Uploading,
          some ⟨percentage, some speed,
            some (humanizeBytes (speed : ℚ) ++ "/s")⟩⟩ }
      ({ st with time := st.time + diff, load := newLoad, file := f },
       if st.completed then [] else [⟨.uploading, some f⟩])
    else (st, [])
  | .load =>
    let f := { st.file with progress := ⟨.Done, some ⟨100, none, none⟩⟩ }
    ({ st with file := f, completed := true },
     if st.completed then [] else [⟨.done, some f⟩])

/-- Folds a whole delivered event sequence through `execStep`. -/
def runExecEvents (st : ExecState) : List XhrEvent → ExecState × List UploadOutput
  | [] => (st, [])
  | ev :: rest =>
    let r1 := execStep st ev
    let r2 := runExecEvents r1.1 rest
    (r2.1, r1.2 ++ r2.2)

/-- What `xhr.send` does: either it dispatches and the transport later
delivers `events`, or it throws synchronously (lines 193-197). -/
inductive SendResult where
  | ok (events : List XhrEvent)
  | throws
deriving Repr, DecidableEq

/-- One Executor run (`uploadFile`, lines 148-204): the emitted output
events and the final state of the entry.  `startTime` is
`new Date().getTime()` at subscription (line 152); the captured `load`
starts at `0` (line 153).  A synchronous `send` failure is caught (line
195) and turned into a bare `observer.complete()`: no event is emitted, the
entry is untouched, and no exception crosses the Observable boundary (the
function returns normally on every input). -/
def uploadFileRun (file : UploadFile) (startTime : ℤ) (send : SendResult) :
    List UploadOutput × UploadFile :=
  match send with
  | .throws => ([], file)
  | .ok events =>
    let r := runExecEvents ⟨startTime, 0, file, false⟩ events
    (r.2, r.1.file)

/-- Number of `uploading` emissions a transport sequence produces: one per
progress tick with a computable length. -/
def tickCount : List XhrEvent → ℕ
  | [] => 0
  | .progress _ lengthComputable _ _ :: rest =>
    (if lengthComputable then 1 else 0) + tickCount rest
  | .load :: rest => tickCount rest

/-- Whether the transport sequence contains the terminal `load` event. -/
def hasLoad : List XhrEvent → Bool
  | [] => false
  | .load :: _ => true
  | .progress _ _ _ _ :: rest => hasLoad rest

/-- Well-formedness of a transport trace, per the XHR specification: the
upload `load` event, when it occurs, is the final delivery (upload
`progress` events all precede it). -/
def loadOnlyLast : List XhrEvent → Bool
  | [] => true
  | .load :: rest => rest.isEmpty
  | .progress _ _ _ _ :: rest => loadOnlyLast rest

/-- Extracts the reported speed from an output event's entry snapshot. -/
def outSpeed (o : UploadOutput) : Option ℤ :=
  o.file.bind fun f => f.progress.data.bind fun d => d.speed

def fileA : UploadFile :=
  { id := "a", fileIndex := 0, lastModifiedDate := 0, name := "a.txt",
    size := 100, type := "text/plain",
    progress := ⟨.Queue, some ⟨0, none, none⟩⟩ }

def evsC2 : List XhrEvent :=
  [.progress 100 true 100 1000, .progress 200 true 300 1000,
   .progress 300 true 600 1000]

/-! ## Registry and Command Dispatcher (`NgUploaderService`, lines 59-209)

The service instance state is `fileList` (the raw `FileList`, `none`
before the first `handleFiles` and after `cancelAll` sets it to `null`),
`files` (the registry of `UploadFile` entries) and `uploads` (the job
table).  A `Subscription` object's identity is modelled by a `ℕ` token
drawn from the `nextSub` counter; `unsubscribe()` calls made during a
dispatcher step are collected in the step's third component.
`generateId()` (line 207, a `Math.random()` draw per call) is modelled by
an ambient id supply `idGen : ℕ → String` giving the id drawn for the
i-th file of a batch. -/

/-- One element of `this.uploads` as pushed on lines 108 and 117: the
entry and the run's `Subscription` (its token). -/
structure Job where
  file : UploadFile
  sub : ℕ
deriving Repr, DecidableEq

/-- The mutable fields of `NgUploaderService` (lines 61-63). -/
structure ServiceState where
  fileList : Option (List RawFile)
  files : List UploadFile
  uploads : List Job
  nextSub : ℕ
deriving Repr, DecidableEq

/-- The constructor (lines 66-70): empty registry, empty job table, no
`fileList` yet. -/
def initialState : ServiceState :=
  { fileList := none, files := [], uploads := [], nextSub := 0 }

/-- `interface UploadInput` (lines 38-45), restricted to the four command
tags the dispatcher handles; `cancel` carries the possibly-absent `id`. -/
inductive UploadInput where
  | uploadFile (file : UploadFile) (url : String) (method : String)
  | uploadAll (url : String) (method : String)
  | cancel (id : Option String)
  | cancelAll
deriving Repr, DecidableEq

/-- `Array.prototype.findIndex` paired with the found element:
`none` models the `-1` result. -/
def findIndexEntry (p : α → Bool) : List α → Option (ℕ × α)
  | [] => none
  | a :: as =>
    if p a then some (0, a)
    else (findIndexEntry p as).map fun r => (r.1 + 1, r.2)

/-- The jobs pushed by an `uploadAll` loop (lines 111-118), one per
registry entry, with consecutive subscription tokens. -/
def mkJobs (base : ℕ) : List UploadFile → List Job
  | [] => []
  | f :: rest => ⟨f, base⟩ :: mkJobs (base + 1) rest

/-- One entry built by `handleFiles` (lines 75-90): fresh id, the batch
index, metadata copied from the raw file, progress initialized to
`{Queue, percentage: 0, speed: null, speedHuman: null}`. -/
def mkEntry (idGen : ℕ → String) (i : ℕ) (f : RawFile) : UploadFile :=
  { fileIndex := i, id := idGen i, name := f.name, size := f.size,
    type := f.type, progress := ⟨.Queue, some ⟨0, none, none⟩⟩,
    lastModifiedDate := f.lastModifiedDate }

/-- The entry list built by the indexed `map` call of `handleFiles`
(line 74), starting at index `i`. -/
def batchEntries (idGen : ℕ → String) : ℕ → List RawFile → List UploadFile
  | _, [] => []
  | i, f :: rest => mkEntry idGen i f :: batchEntries idGen (i + 1) rest

/-- `handleFiles` (lines 72-97): stores the raw batch in `fileList`,
replaces `files` with the freshly built entries (the `map` emits
`addedToQueue` per entry as it goes), then emits one `allAddedToQueue`.
The job table is not touched. -/
def handleFiles (s : ServiceState) (fs : List RawFile) (idGen : ℕ → String) :
    ServiceState × List UploadOutput :=
  let entries := batchEntries idGen 0 fs
  ({ s with fileList := some fs, files := entries },
   entries.map (fun e => ⟨.addedToQueue, some e⟩) ++ [⟨.allAddedToQueue, none⟩])

/-- One input command through the `switch` of `initInputEvents`
(lines 99-146).  Returns the new state, the events emitted on
`serviceEvents` during the step, and the subscription tokens
unsubscribed during the step.

* `uploadFile` (lines 102-109): emits `start`, subscribes a run (whose
  asynchronous events are forwarded later and are not part of this step),
  pushes the job.
* `uploadAll` (lines 110-119): the same per registry entry.
* `cancel` (lines 120-134): `event.id || null` makes an absent or empty
  id a no-op; otherwise the job index is looked up **in the job table** by
  id; if found, that job is unsubscribed, `cancelled` is emitted with the
  job's entry, and the job table, the registry and the raw file list are
  all spliced/filtered **at that job-table index** (`eraseIdx` leaves a
  list unchanged when the index is out of range, as `splice` and the
  index-filter do; a `null` `fileList`, only reachable by cancelling a job
  started after `cancelAll`, is left `none` — no claim exercises that
  path, where the source's `filter.call(null, …)` would throw).
* `cancelAll` (lines 135-143): unsubscribes every job, emitting one
  `cancelled` per job, then empties the job table and the registry and
  nulls the raw file list. -/
def stepInput (s : ServiceState) : UploadInput → ServiceState × List UploadOutput × List ℕ
  | .uploadFile file _url _method =>
    ({ s with uploads := s.uploads ++ [⟨file, s.nextSub⟩], nextSub := s.nextSub + 1 },
     [⟨.start, some file⟩], [])
  | .uploadAll _url _method =>
    ({ s with uploads := s.uploads ++ mkJobs s.nextSub s.files,
              nextSub := s.nextSub + s.files.length },
     s.files.map (fun f => ⟨.start, some f⟩), [])
  | .cancel id =>
    match id with
    | none => (s, [], [])
    | some i =>
      if i = "" then (s, [], [])
      else
        match findIndexEntry (fun u => u.file.id = i) s.uploads with
        | none => (s, [], [])
        | some (k, u) =>
          ({ s with uploads := s.uploads.eraseIdx k,
                    files := s.files.eraseIdx k,
                    fileList := s.fileList.map fun l => l.eraseIdx k },
           [⟨.cancelled, some u.file⟩], [u.sub])
  | .cancelAll =>
    ({ s with uploads := [], fileList := none, files := [] },
     s.uploads.map (fun u => ⟨.cancelled, some u.file⟩),
     s.uploads.map Job.sub)

/-- What the dispatcher does when an Executor run completes naturally
(emits `done` and the Observable completes): the `subscribe` calls on
lines 104-106 and 113-115 install only a `next` forwarder — no complete
handler and no teardown that touches the service state — so completion
leaves the dispatcher state exactly as it is, and in particular the
finished job stays in `this.uploads`. -/
def onExecutorComplete (s : ServiceState) : ServiceState := s

/-- Whether a `cancel` command actually hits a tracked job (id present,
non-empty, and matching some job in the table). -/
def cancelHits (s : ServiceState) : Option String → Bool
  | none => false
  | some i => !(i = "" : Bool) && s.uploads.any fun u => u.file.id = i

def rawA : RawFile := { name := "a.txt", size := 100, type := "text/plain", lastModifiedDate := 0 }
def rawB : RawFile := { name := "b.txt", size := 200, type := "text/plain", lastModifiedDate := 0 }

def fileB : UploadFile :=
  { id := "b", fileIndex := 1, lastModifiedDate := 0, name := "b.txt",
    size := 200, type := "text/plain",
    progress := ⟨.Queue, some ⟨0, none, none⟩⟩ }

/-- Registry holding the batch `[a.txt, b.txt]` with entries `fileA`,
`fileB`, no job started yet. -/
def stateAB : ServiceState :=
  { fileList := some [rawA, rawB], files := [fileA, fileB], uploads := [], nextSub := 0 }

/-- Registry holding only `a.txt`, no job started yet. -/
def stateA : ServiceState :=
  { fileList := some [rawA], files := [fileA], uploads := [], nextSub := 0 }

/-- A state with one tracked job for `fileA` (subscription token 0). -/
def stateW : ServiceState :=
  { fileList := some [rawA], files := [fileA], uploads := [⟨fileA, 0⟩], nextSub := 1 }

/-- The event protocol one Executor run obeys (stated over `uploadFileRun`):
the emitted event types are exactly one `uploading` per computable-length
progress tick, in order, closed by a single final `done` exactly when the
transport completed; on completion the entry ends `Done/100/null`; every
`uploading` (resp. `done`) snapshot carries status `Uploading` (resp.
`Done`); and a run truncated by cancellation after any number `k` of
deliveries emits a prefix of the full run's events — nothing is emitted
after the cut. -/
def execProtocolSpec (file : UploadFile) (startTime : ℤ) (evs : List XhrEvent) : Prop :=
  ((uploadFileRun file startTime (.ok evs)).1.map UploadOutput.type
      = List.replicate (tickCount evs) OutType.uploading
        ++ (if hasLoad evs then [OutType.done] else []))
  ∧ (hasLoad evs = true →
      (uploadFileRun file startTime (.ok evs)).2.progress
        = ⟨.Done, some ⟨100, none, none⟩⟩)
  ∧ (∀ o ∈ (uploadFileRun file startTime (.ok evs)).1,
      o.type = OutType.uploading →
        ∃ f, o.file = some f ∧ f.progress.status = .Uploading)
  ∧ (∀ o ∈ (uploadFileRun file startTime (.ok evs)).1,
      o.type = OutType.done →
        ∃ f, o.file = some f ∧ f.progress.status = .Done)
  ∧ (∀ k : ℕ, ∃ rest,
      (uploadFileRun file startTime (.ok evs)).1
        = (uploadFileRun file startTime (.ok (evs.take k))).1 ++ rest)

/-- A well-formed transport trace: two progress ticks then completion. -/
def evsC9 : List XhrEvent :=
  [.progress 100 true 500 1000, .progress 200 true 1000 1000, .load]

/-! ## Helper lemmas -/

theorem findIndexEntry_eq_none_of_any (p : α → Bool) (l : List α)
    (h : l.any p = false) : findIndexEntry p l = none := by
  induction l with
  | nil => rfl
  | cons a as ih =>
    simp only [List.any_cons, Bool.or_eq_false_iff] at h
    simp [findIndexEntry, h.1, ih h.2]

theorem findIndexEntry_eq_some_of_any (p : α → Bool) (l : List α)
    (h : l.any p = true) :
    ∃ k a, findIndexEntry p l = some (k, a) ∧ p a = true ∧ k < l.length := by
  induction l with
  | nil => simp at h
  | cons b as ih =>
    by_cases hb : p b = true
    · exact ⟨0, b, by simp [findIndexEntry, hb], hb, by simp⟩
    · simp only [List.any_cons, Bool.or_eq_true] at h
      obtain ⟨k, a, hfind, hpa, hk⟩ := ih (h.resolve_left hb)
      refine ⟨k + 1, a, ?_, hpa, by simpa using Nat.succ_lt_succ hk⟩
      simp [findIndexEntry, hb, hfind]

theorem batchEntries_length (idGen : ℕ → String) (fs : List RawFile) :
    ∀ i, (batchEntries idGen i fs).length = fs.length := by
  induction fs with
  | nil => intro i; rfl
  | cons f rest ih => intro i; simp [batchEntries, ih]

theorem batchEntries_progress (idGen : ℕ → String) (fs : List RawFile) :
    ∀ i, ∀ e ∈ batchEntries idGen i fs,
      e.progress = ⟨.Queue, some ⟨0, none, none⟩⟩ := by
  induction fs with
  | nil => intro i e he; simp [batchEntries] at he
  | cons f rest ih =>
    intro i e he
    rcases List.mem_cons.mp he with h | h
    · subst h; rfl
    · exact ih (i + 1) e h

theorem runExecEvents_append (st : ExecState) (xs ys : List XhrEvent) :
    runExecEvents st (xs ++ ys)
      = ((runExecEvents (runExecEvents st xs).1 ys).1,
         (runExecEvents st xs).2
           ++ (runExecEvents (runExecEvents st xs).1 ys).2) := by
  induction xs generalizing st with
  | nil => simp [runExecEvents]
  | cons e rest ih => simp [runExecEvents, ih, List.append_assoc]

/-- `execStep` never clears the `completed` flag, and on a progress tick
it preserves it. -/
theorem execStep_progress_completed (st : ExecState) (now : ℤ)
    (lc : Bool) (loaded total : ℤ) :
    (execStep st (.progress now lc loaded total)).1.completed = st.completed := by
  by_cases h : lc = true <;> simp [execStep, h]

/-- Shape of a computable-length progress tick handled before completion:
exactly one `uploading` emission, whose snapshot is the new entry value
and carries status `Uploading`. -/
theorem execStep_out_true (st : ExecState) (now loaded total : ℤ)
    (hc : st.completed = false) :
    (execStep st (.progress now true loaded total)).2
      = [⟨OutType.uploading, some (execStep st (.progress now true loaded total)).1.file⟩]
    ∧ (execStep st (.progress now true loaded total)).1.file.progress.status
        = .Uploading := by
  simp [execStep, hc]

/-- A progress tick with unknown length is a no-op. -/
theorem execStep_out_false (st : ExecState) (now loaded total : ℤ) :
    execStep st (.progress now false loaded total) = (st, []) := by
  simp [execStep]

/-- Shape of the `load` event handled before completion: one `done`
emission whose snapshot is the final entry value, with progress
`Done/100/null`. -/
theorem execStep_out_load (st : ExecState) (hc : st.completed = false) :
    (execStep st .load).2
      = [⟨OutType.done, some (execStep st .load).1.file⟩]
    ∧ (execStep st .load).1.file.progress
        = ⟨.Done, some ⟨100, none, none⟩⟩ := by
  simp [execStep, hc]

/-- Unfolding `runExecEvents` one event. -/
theorem runExecEvents_cons (st : ExecState) (ev : XhrEvent) (rest : List XhrEvent) :
    runExecEvents st (ev :: rest)
      = ((runExecEvents (execStep st ev).1 rest).1,
         (execStep st ev).2 ++ (runExecEvents (execStep st ev).1 rest).2) := rfl

/-- `logFloorAux` really is a floor logarithm: with enough fuel, its
result `i` satisfies `1024 ^ i ≤ n`. -/
theorem logFloorAux_pow_le (fuel : ℕ) :
    ∀ n : ℕ, 1 ≤ n → n < 1024 ^ fuel → 1024 ^ logFloorAux fuel n ≤ n := by
  induction fuel with
  | zero =>
    intro n h1 h2
    simp only [pow_zero] at h2
    omega
  | succ fuel ih =>
    intro n h1 h2
    rw [logFloorAux]
    by_cases hn : 1024 ≤ n
    · rw [if_pos hn]
      have hd1 : 1 ≤ n / 1024 := (Nat.one_le_div_iff (by norm_num)).2 hn
      have hdlt : n / 1024 < 1024 ^ fuel := by
        rw [Nat.div_lt_iff_lt_mul (by norm_num)]
        calc n < 1024 ^ (fuel + 1) := h2
          _ = 1024 ^ fuel * 1024 := by rw [pow_succ]
      have hle := ih (n / 1024) hd1 hdlt
      calc 1024 ^ (logFloorAux fuel (n / 1024) + 1)
          = 1024 ^ logFloorAux fuel (n / 1024) * 1024 := by rw [pow_succ]
        _ ≤ n / 1024 * 1024 := Nat.mul_le_mul_right _ hle
        _ ≤ n := Nat.div_mul_le_self n 1024
    · rw [if_neg hn, pow_zero]
      omega

/-- With 128 units of fuel, the unit index of an input below `1024^6`
stays below 6. -/
theorem logFloorAux_lt_six (n : ℕ) (h1 : 1 ≤ n) (h2 : n < 1024 ^ 6) :
    logFloorAux 128 n < 6 := by
  by_contra hge
  push_neg at hge
  have hbig : n < 1024 ^ 128 :=
    lt_of_lt_of_le h2 (Nat.pow_le_pow_right (by norm_num) (by norm_num))
  have hle := logFloorAux_pow_le 128 n h1 hbig
  have hmon : (1024 : ℕ) ^ 6 ≤ 1024 ^ logFloorAux 128 n :=
    Nat.pow_le_pow_right (by norm_num) hge
  omega

/-- `clogAux` is at least 1 on inputs at least 2 (one fuel step suffices
to see it). -/
theorem clogAux_pos (fuel n : ℕ) (h : 2 ≤ n) : 1 ≤ clogAux (fuel + 1) n := by
  rw [clogAux, if_neg (by omega)]
  omega

/-- On a positive natural, `logFloor1024` takes the `x ≥ 1` branch and
computes `logFloorAux` of that natural. -/
theorem logFloor1024_natCast (n : ℕ) (h : 1 ≤ n) :
    logFloor1024 (n : ℚ) = (logFloorAux 128 n : ℤ) := by
  rw [logFloor1024, if_pos (by exact_mod_cast h)]
  rw [Int.floor_natCast]
  simp

/-- The protocol invariant of one run, proved over the fold from any
not-yet-completed state. -/
theorem runExec_protocol (evs : List XhrEvent) :
    ∀ st : ExecState, st.completed = false → loadOnlyLast evs = true →
    ((runExecEvents st evs).2.map UploadOutput.type
        = List.replicate (tickCount evs) OutType.uploading
          ++ (if hasLoad evs then [OutType.done] else []))
    ∧ (hasLoad evs = true →
        (runExecEvents st evs).1.file.progress = ⟨.Done, some ⟨100, none, none⟩⟩)
    ∧ (∀ o ∈ (runExecEvents st evs).2, o.type = OutType.uploading →
        ∃ f, o.file = some f ∧ f.progress.status = .Uploading)
    ∧ (∀ o ∈ (runExecEvents st evs).2, o.type = OutType.done →
        ∃ f, o.file = some f ∧ f.progress.status = .Done) := by
  induction evs with
  | nil =>
    intro st hc _
    refine ⟨by simp [runExecEvents, tickCount, hasLoad], by simp [hasLoad], ?_, ?_⟩
    · intro o ho; simp [runExecEvents] at ho
    · intro o ho; simp [runExecEvents] at ho
  | cons ev rest ih =>
    intro st hc hwf
    cases ev with
    | load =>
      have hrest : rest = [] := by
        simpa [loadOnlyLast, List.isEmpty_iff] using hwf
      subst hrest
      obtain ⟨hout, hfin⟩ := execStep_out_load st hc
      rw [runExecEvents_cons]
      refine ⟨?_, fun _ => ?_, ?_, ?_⟩
      · simp [runExecEvents, hout, tickCount, hasLoad]
      · simpa [runExecEvents] using hfin
      · intro o ho hto
        simp only [runExecEvents, List.append_nil, hout, List.mem_singleton] at ho
        subst ho; simp at hto
      · intro o ho _
        simp only [runExecEvents, List.append_nil, hout, List.mem_singleton] at ho
        subst ho
        refine ⟨_, rfl, ?_⟩
        rw [hfin]
    | progress now lc loaded total =>
      have hwf' : loadOnlyLast rest = true := by simpa [loadOnlyLast] using hwf
      have hc' : (execStep st (.progress now lc loaded total)).1.completed = false := by
        rw [execStep_progress_completed]; exact hc
      obtain ⟨h1, h2, h3, h4⟩ := ih (execStep st (.progress now lc loaded total)).1 hc' hwf'
      have hhl : hasLoad (XhrEvent.progress now lc loaded total :: rest) = hasLoad rest := rfl
      rw [runExecEvents_cons]
      by_cases hlc : lc = true
      · subst hlc
        obtain ⟨hout, hstat⟩ := execStep_out_true st now loaded total hc
        refine ⟨?_, fun hl => ?_, ?_, ?_⟩
        · rw [List.map_append, hout, h1]
          simp [tickCount, hasLoad, Nat.one_add, List.replicate_succ]
        · rw [hhl] at hl
          exact h2 hl
        · intro o ho hto
          rcases List.mem_append.mp ho with ho | ho
          · rw [hout, List.mem_singleton] at ho
            subst ho
            exact ⟨_, rfl, hstat⟩
          · exact h3 o ho hto
        · intro o ho hto
          rcases List.mem_append.mp ho with ho | ho
          · rw [hout, List.mem_singleton] at ho
            subst ho; simp at hto
          · exact h4 o ho hto
      · have hlcf : lc = false := by simpa using hlc
        subst hlcf
        rw [execStep_out_false] at h1 h2 h3 h4 ⊢
        refine ⟨?_, fun hl => ?_, ?_, ?_⟩
        · simpa [tickCount, hasLoad] using h1
        · rw [hhl] at hl
          exact h2 hl
        · intro o ho hto
          exact h3 o (by simpa using ho) hto
        · intro o ho hto
          exact h4 o (by simpa using ho) hto

/-! ## Claims -/

/-- C1: the claim says cancelling an id removes the registry entry and the
raw source bearing that id.  Evaluating the code on a registry `[a, b]`
where only `b` has a started job: cancelling `"b"` emits `cancelled` for
`b`, but removes registry entry `a` (the survivor is `b` itself) and raw
source `a.txt` — the splice index is the job's position in the job table
(0), not the position of id `"b"` in the registry (1). -/
theorem cancel_removes_wrong_entry :
    (stepInput (stepInput stateAB (.uploadFile fileB "http://u" "POST")).1
        (.cancel (some "b"))).2.1 = [⟨.cancelled, some fileB⟩]
    ∧ fileA.id = "a" ∧ fileB.id = "b"
    ∧ stateAB.files = [fileA, fileB]
    ∧ (stepInput (stepInput stateAB (.uploadFile fileB "http://u" "POST")).1
        (.cancel (some "b"))).1.files = [fileB]
    ∧ (stepInput (stepInput stateAB (.uploadFile fileB "http://u" "POST")).1
        (.cancel (some "b"))).1.fileList = some [rawB] := by
  decide

/-- C2: the claim says every tick's speed is the bytes since the previous
tick divided by the time since the previous tick.  On ticks
`(t=100, loaded=100)`, `(t=200, loaded=300)`, `(t=300, loaded=600)` the
code reports `[1000, 2000, 4000]`: at the third tick the captured `load`
variable holds the previous tick's delta (200), not the previous
cumulative count (300), so the code computes `(600-200)*1000/100 = 4000`
while the claimed incremental rate is `(600-300)*1000/100 = 3000`. -/
theorem speed_third_tick_not_incremental :
    (uploadFileRun fileA 0 (.ok evsC2)).1.map outSpeed
        = [some 1000, some 2000, some 4000]
    ∧ jsSpeed (600 - 300) (300 - 200) = 3000 := by
  decide

/-- C3 counterexample: the claim says a cancel after natural completion
finds no job, emits nothing and mutates nothing.  Evaluating the code:
start `a`'s upload, let its run complete (`onExecutorComplete`, which the
source leaves as the identity — no removal on `done`), then cancel
`"a"`: a `cancelled` event IS emitted and the job table IS mutated. -/
theorem completed_job_cancel_emits :
    (stepInput (onExecutorComplete (stepInput stateA (.uploadFile fileA "http://u" "POST")).1)
        (.cancel (some "a"))).2.1 = [⟨.cancelled, some fileA⟩]
    ∧ (onExecutorComplete (stepInput stateA (.uploadFile fileA "http://u" "POST")).1).uploads
        = [⟨fileA, 0⟩]
    ∧ (stepInput (onExecutorComplete (stepInput stateA (.uploadFile fileA "http://u" "POST")).1)
        (.cancel (some "a"))).1.uploads = [] := by
  decide

/-- C3 (amended): natural completion of a run removes nothing from the
dispatcher's tracking (`onExecutorComplete` is the identity on the
service state), so whenever the completed entry's id still hits the job
table, a subsequent cancel finds the job, emits exactly one `cancelled`
event carrying that job's entry, unsubscribes it, and removes it from the
job table — a completed job remains cancellable. -/
theorem completed_job_remains_cancellable (s : ServiceState) (i : String)
    (h : cancelHits (onExecutorComplete s) (some i) = true) :
    onExecutorComplete s = s
    ∧ ∃ u : Job, u.file.id = i
        ∧ (stepInput (onExecutorComplete s) (.cancel (some i))).2.1
            = [⟨.cancelled, some u.file⟩]
        ∧ (stepInput (onExecutorComplete s) (.cancel (some i))).2.2 = [u.sub]
        ∧ (stepInput (onExecutorComplete s) (.cancel (some i))).1.uploads.length + 1
            = s.uploads.length := by
  refine ⟨rfl, ?_⟩
  have h' : cancelHits s (some i) = true := h
  have hi : ¬ i = "" := by
    intro hie
    rw [hie] at h'
    simp [cancelHits] at h'
  have hany : (s.uploads.any fun u => u.file.id = i) = true := by
    simpa [cancelHits, hi] using h'
  obtain ⟨k, u, hfind, hpu, hk⟩ := findIndexEntry_eq_some_of_any _ _ hany
  refine ⟨u, of_decide_eq_true hpu, ?_, ?_, ?_⟩
  · show (stepInput s (.cancel (some i))).2.1 = _
    simp only [stepInput, if_neg hi, hfind]
  · show (stepInput s (.cancel (some i))).2.2 = _
    simp only [stepInput, if_neg hi, hfind]
  · show (stepInput s (.cancel (some i))).1.uploads.length + 1 = _
    simp only [stepInput, if_neg hi, hfind]
    exact List.length_eraseIdx_add_one hk

/-- C3 witness: the amended claim applied to the one-completed-job state. -/
theorem completed_job_remains_cancellable_witness :
    cancelHits (onExecutorComplete stateW) (some "a") = true
    ∧ (onExecutorComplete stateW = stateW
      ∧ ∃ u : Job, u.file.id = "a"
          ∧ (stepInput (onExecutorComplete stateW) (.cancel (some "a"))).2.1
              = [⟨.cancelled, some u.file⟩]
          ∧ (stepInput (onExecutorComplete stateW) (.cancel (some "a"))).2.2 = [u.sub]
          ∧ (stepInput (onExecutorComplete stateW) (.cancel (some "a"))).1.uploads.length + 1
              = stateW.uploads.length) :=
  ⟨by decide, completed_job_remains_cancellable stateW "a" (by decide)⟩

/-- C4: a cancel whose id is absent, empty, or matches no tracked job
emits no event, unsubscribes nothing, and leaves the whole service state
(registry, raw file list, job table) unchanged. -/
theorem cancel_unknown_noop (s : ServiceState) (id : Option String)
    (h : cancelHits s id = false) :
    stepInput s (.cancel id) = (s, [], []) := by
  cases id with
  | none => rfl
  | some i =>
    by_cases hi : i = ""
    · simp [stepInput, hi]
    · have hany : (s.uploads.any fun u => u.file.id = i) = false := by
        simpa [cancelHits, hi] using h
      simp only [stepInput, if_neg hi, findIndexEntry_eq_none_of_any _ _ hany]

/-- C4 witness: cancelling the unknown id `"zzz"` in a state with one
tracked job for `"a"`. -/
theorem cancel_unknown_noop_witness :
    cancelHits stateW (some "zzz") = false
    ∧ stepInput stateW (.cancel (some "zzz")) = (stateW, [], []) :=
  ⟨by decide, cancel_unknown_noop stateW (some "zzz") (by decide)⟩

/-- C5: enqueueing a batch of N raw files emits exactly N `addedToQueue`
events, one per entry in batch order, then a single `allAddedToQueue`;
afterwards the registry holds exactly the N fresh entries (a function of
the batch alone — any prior batch is discarded, not merged), each with
progress `{Queue, 0, null, null}`, and the raw list is the new batch. -/
theorem handleFiles_spec (s : ServiceState) (fs : List RawFile) (idGen : ℕ → String) :
    (handleFiles s fs idGen).2
      = (batchEntries idGen 0 fs).map (fun e => ⟨.addedToQueue, some e⟩)
        ++ [⟨.allAddedToQueue, none⟩]
    ∧ (handleFiles s fs idGen).2.length = fs.length + 1
    ∧ (handleFiles s fs idGen).1.files = batchEntries idGen 0 fs
    ∧ (handleFiles s fs idGen).1.files.length = fs.length
    ∧ (∀ e ∈ (handleFiles s fs idGen).1.files,
        e.progress = ⟨.Queue, some ⟨0, none, none⟩⟩)
    ∧ (handleFiles s fs idGen).1.fileList = some fs := by
  refine ⟨rfl, ?_, rfl, ?_, ?_, rfl⟩
  · simp [handleFiles, batchEntries_length]
  · simpa [handleFiles] using batchEntries_length idGen fs 0
  · intro e he
    exact batchEntries_progress idGen fs 0 e (by simpa [handleFiles] using he)

/-- C6: `cancelAll` emits exactly one `cancelled` event per tracked job
(carrying that job's entry, in job-table order), unsubscribes every job,
and leaves the job table and the registry empty and the raw file list
nulled. -/
theorem cancelAll_spec (s : ServiceState) :
    (stepInput s .cancelAll).2.1
        = s.uploads.map (fun u => ⟨.cancelled, some u.file⟩)
    ∧ (stepInput s .cancelAll).2.1.length = s.uploads.length
    ∧ (stepInput s .cancelAll).2.2 = s.uploads.map Job.sub
    ∧ (stepInput s .cancelAll).1.uploads = []
    ∧ (stepInput s .cancelAll).1.files = []
    ∧ (stepInput s .cancelAll).1.fileList = none :=
  ⟨rfl, by simp [stepInput], rfl, rfl, rfl, rfl⟩

/-- C7: the three documented values of `humanizeBytes`, plus its value on
each power of 1024 up to the sixth unit, exhibiting the binary unit steps
`Bytes/KB/MB/GB/TB/PB` with two-decimal rendering (determinism and
side-effect-freedom hold by construction: it is a plain function of its
argument). -/
theorem humanizeBytes_values :
    humanizeBytes 0 = "0 Byte"
    ∧ humanizeBytes 1024 = "1 KB"
    ∧ humanizeBytes 1536 = "1.5 KB"
    ∧ humanizeBytes 1 = "1 Bytes"
    ∧ humanizeBytes (1024 ^ 2) = "1 MB"
    ∧ humanizeBytes (1024 ^ 3) = "1 GB"
    ∧ humanizeBytes (1024 ^ 4) = "1 TB"
    ∧ humanizeBytes (1024 ^ 5) = "1 PB"
    ∧ humanizeBytes 1060 = "1.04 KB" := by
  decide

/-- C8: when `xhr.send` throws synchronously, the run terminates having
emitted no event at all and the entry is returned unmutated; the
exception never escapes (the run is a total function that returns
normally on the `throws` input). -/
theorem uploadFileRun_throws_silent (file : UploadFile) (startTime : ℤ) :
    uploadFileRun file startTime .throws = ([], file) := rfl

/-- C9: over any well-formed transport trace (progress ticks, with the
`load` completion last if present), a run emits exactly one `uploading`
per computable-length tick followed by exactly one `done` iff the
transport completed; on completion the entry's progress is
`Done/100/null`; `uploading` snapshots carry status `Uploading` and
`done` snapshots status `Done` (so statuses follow
`Queue → Uploading* → Done`); and a run cancelled after `k` deliveries
emits a prefix of the full run's events — nothing after the cut, hence
nothing after `done` or after cancellation. -/
theorem uploadFileRun_protocol (file : UploadFile) (startTime : ℤ)
    (evs : List XhrEvent) (hwf : loadOnlyLast evs = true) :
    execProtocolSpec file startTime evs := by
  obtain ⟨h1, h2, h3, h4⟩ := runExec_protocol evs ⟨startTime, 0, file, false⟩ rfl hwf
  refine ⟨h1, h2, h3, h4, ?_⟩
  intro k
  refine ⟨(runExecEvents (runExecEvents ⟨startTime, 0, file, false⟩ (evs.take k)).1
      (evs.drop k)).2, ?_⟩
  show (runExecEvents ⟨startTime, 0, file, false⟩ evs).2 = _
  conv_lhs => rw [← List.take_append_drop k evs]
  rw [runExecEvents_append]
  exact rfl

/-- C9 witness: the protocol on a concrete two-tick-then-done trace. -/
theorem uploadFileRun_protocol_witness : execProtocolSpec fileA 0 evsC9 :=
  uploadFileRun_protocol fileA 0 evsC9 (by decide)

/-- C10: for every natural `1 ≤ n < 1024^6` the unit index computed by
`humanizeBytes` lies in `[0, 6)`, the six-element unit lookup is in
range, and the result ends in one of the units; for every rational
strictly between 0 and 1 the index is negative and the lookup misses the
list (JavaScript `undefined`). -/
theorem humanize_unit_index :
    (∀ n : ℕ, 1 ≤ n → n < 1024 ^ 6 →
      0 ≤ logFloor1024 (n : ℚ) ∧ logFloor1024 (n : ℚ) < 6
      ∧ ∃ u ∈ sizes, ∃ p : String, humanizeBytes (n : ℚ) = p ++ u)
    ∧ (∀ x : ℚ, 0 < x → x < 1 →
      logFloor1024 x < 0 ∧ jsIndex sizes (logFloor1024 x) = none) := by
  constructor
  · intro n h1 h2
    have hlog := logFloor1024_natCast n h1
    have hlt : logFloorAux 128 n < 6 := logFloorAux_lt_six n h1 h2
    have hnn : 0 ≤ logFloor1024 (n : ℚ) := by
      rw [hlog]
      exact_mod_cast Nat.zero_le _
    refine ⟨hnn, by rw [hlog]; exact_mod_cast hlt, ?_⟩
    have hne : (n : ℚ) ≠ 0 := Nat.cast_ne_zero.mpr (by omega)
    have hidx : (logFloor1024 ((n : ℚ))).toNat < sizes.length := by
      rw [hlog]
      simp only [sizes, List.length_cons, List.length_nil]
      omega
    have hjs : jsIndex sizes (logFloor1024 (n : ℚ))
        = some (sizes.get ⟨(logFloor1024 ((n : ℚ))).toNat, hidx⟩) := by
      rw [jsIndex, if_pos hnn]
      exact List.get?_eq_get hidx
    refine ⟨sizes.get ⟨(logFloor1024 ((n : ℚ))).toNat, hidx⟩, List.get_mem _ _ _,
      formatFixedTrim (scaled100 (n : ℚ) (logFloor1024 (n : ℚ))) ++ " ", ?_⟩
    rw [humanizeBytes, if_neg hne, hjs]
    rfl
  · intro x hx0 hx1
    have hnotone : ¬ (1 : ℚ) ≤ x := not_le.mpr hx1
    have hnum : 0 < x.num := Rat.num_pos.mpr hx0
    have hltd : x.num < (x.den : ℤ) := Rat.lt_one_iff_num_lt_denom.mp hx1
    have hm2 : 2 ≤ (x.den + x.num.toNat - 1) / x.num.toNat := by
      rw [Nat.le_div_iff_mul_le (by omega)]
      omega
    have hclog : 1 ≤ clogAux 128 ((x.den + x.num.toNat - 1) / x.num.toNat) :=
      clogAux_pos 127 _ hm2
    have hneg : logFloor1024 x < 0 := by
      rw [logFloor1024, if_neg hnotone]
      omega
    exact ⟨hneg, by rw [jsIndex, if_neg (not_le.mpr hneg)]⟩

/-- C10 witness: the in-range branch at 1536 and the negative branch at
one half. -/
theorem humanize_unit_index_witness :
    (0 ≤ logFloor1024 ((1536 : ℕ) : ℚ) ∧ logFloor1024 ((1536 : ℕ) : ℚ) < 6
      ∧ ∃ u ∈ sizes, ∃ p : String, humanizeBytes ((1536 : ℕ) : ℚ) = p ++ u)
    ∧ (logFloor1024 (1 / 2 : ℚ) < 0
      ∧ jsIndex sizes (logFloor1024 (1 / 2 : ℚ)) = none) :=
  ⟨humanize_unit_index.1 1536 (by decide) (by decide),
   humanize_unit_index.2 (1 / 2) one_half_pos one_half_lt_one⟩
